import Mathlib

/-!
Shallow embedding of the GPS route optimizer (gps_route_optimizer.py).

Coordinates are pairs of real numbers (latitude, longitude).  The
algorithmic layer — route cost evaluation, brute-force exact search,
nearest-neighbor greedy construction, 2-opt local search, and the
dispatching `optimize_route` — is embedded generically over a distance
function `d : α → β` into a linear ordered field, and instantiated at the
haversine great-circle distance for the claims about the actual program.
Python floats are modelled as real numbers; `float('inf')` as `Option`
(`none` means no candidate seen yet, every finite distance beats it);
fallible dispatch as `Except String`.
-/

/-- Degrees to radians, as math.radians. -/
noncomputable def toRadians (x : ℝ) : ℝ := x * Real.pi / 180

/-- Great circle distance between two GPS coordinates (haversine formula),
line-by-line from haversine_distance in gps_route_optimizer.py. -/
noncomputable def haversine_distance (coord1 coord2 : ℝ × ℝ) : ℝ :=
  let lat1 := toRadians coord1.1
  let lon1 := toRadians coord1.2
  let lat2 := toRadians coord2.1
  let lon2 := toRadians coord2.2
  let dlat := lat2 - lat1
  let dlon := lon2 - lon1
  let a := Real.sin (dlat / 2) ^ 2 +
    Real.cos lat1 * Real.cos lat2 * Real.sin (dlon / 2) ^ 2
  let c := 2 * Real.arcsin (Real.sqrt a)
  c * 6371

/-- Sum of `d` over consecutive pairs of the list (the non-closing edges of
the route). -/
def pathDistance {α : Type*} {β : Type*} [LinearOrderedField β]
    (d : α → α → β) : List α → β
  | [] => 0
  | [_] => 0
  | a :: b :: rest => d a b + pathDistance d (b :: rest)

/-- Total distance of a closed route: the loop
`for i in range(len(route)): total += d(route[i], route[(i+1) % len(route)])`
adds every consecutive edge plus the closing edge from the last element back
to the first (for a singleton route the single modulo step adds `d p p`). -/
def calculate_total_distance {α : Type*} {β : Type*} [LinearOrderedField β]
    (d : α → α → β) (route : List α) : β :=
  match route with
  | [] => 0
  | x :: xs => pathDistance d (x :: xs) + d (xs.getLastD x) x

theorem haversine_self (p : ℝ × ℝ) : haversine_distance p p = 0 := by
  simp [haversine_distance, sub_self]

theorem haversine_comm (p q : ℝ × ℝ) :
    haversine_distance p q = haversine_distance q p := by
  have hsin : ∀ x y : ℝ,
      Real.sin ((x - y) / 2) ^ 2 = Real.sin ((y - x) / 2) ^ 2 := by
    intro x y
    rw [show (x - y) / 2 = -((y - x) / 2) by ring, Real.sin_neg]
    ring
  simp only [haversine_distance]
  rw [hsin (toRadians q.1) (toRadians p.1), hsin (toRadians q.2) (toRadians p.2),
    mul_comm (Real.cos (toRadians q.1)) (Real.cos (toRadians p.1))]

section TotalDistanceLemmas

variable {α : Type*} {β : Type*} [LinearOrderedField β] (d : α → α → β)

theorem pathDistance_concat (l : List α) (y : α) :
    pathDistance d (l ++ [y]) =
      pathDistance d l + (l.getLast?.elim 0 fun c => d c y) := by
  induction l with
  | nil => simp [pathDistance]
  | cons a t ih =>
    cases t with
    | nil => simp [pathDistance]
    | cons b m =>
      rw [show (a :: b :: m) ++ [y] = a :: ((b :: m) ++ [y]) from rfl,
        show pathDistance d (a :: ((b :: m) ++ [y])) =
          d a b + pathDistance d ((b :: m) ++ [y]) from rfl,
        ih, List.getLast?_cons_cons,
        show pathDistance d (a :: b :: m) = d a b + pathDistance d (b :: m) from rfl]
      ring

theorem getLast?_cons_eq_getLastD (x : α) (xs : List α) :
    (x :: xs).getLast? = some (xs.getLastD x) := by
  induction xs generalizing x with
  | nil => rfl
  | cons b m ih => rw [List.getLast?_cons_cons, ih, List.getLastD_cons]

/-- One cyclic rotation step preserves the closed-tour length, for any
distance function. -/
theorem total_rotate_one (x : α) (xs : List α) :
    calculate_total_distance d (xs ++ [x]) =
      calculate_total_distance d (x :: xs) := by
  cases xs with
  | nil => simp
  | cons y ys =>
    simp only [calculate_total_distance, List.cons_append]
    have h1 : pathDistance d (y :: (ys ++ [x])) =
        pathDistance d (y :: ys) + d (ys.getLastD y) x := by
      rw [show y :: (ys ++ [x]) = (y :: ys) ++ [x] from rfl,
        pathDistance_concat, getLast?_cons_eq_getLastD]
      rfl
    have h2 : (ys ++ [x]).getLastD y = x := by
      rw [List.getLastD_eq_getLast?, List.getLast?_concat]
      rfl
    rw [h1, h2, List.getLastD_cons,
      show pathDistance d (x :: y :: ys) = d x y + pathDistance d (y :: ys) from rfl]
    ring

/-- Arbitrary cyclic rotation preserves the closed-tour length. -/
theorem total_rotate (u v : List α) (a : α) :
    calculate_total_distance d (u ++ a :: v) =
      calculate_total_distance d (a :: (v ++ u)) := by
  induction u generalizing v with
  | nil => simp
  | cons y ys ih =>
    have h1 : calculate_total_distance d (y :: (ys ++ a :: v)) =
        calculate_total_distance d ((ys ++ a :: v) ++ [y]) :=
      (total_rotate_one d y (ys ++ a :: v)).symm
    have h2 : (ys ++ a :: v) ++ [y] = ys ++ a :: (v ++ [y]) := by simp
    calc calculate_total_distance d ((y :: ys) ++ a :: v)
        = calculate_total_distance d ((ys ++ a :: v) ++ [y]) := h1
      _ = calculate_total_distance d (ys ++ a :: (v ++ [y])) := by rw [h2]
      _ = calculate_total_distance d (a :: ((v ++ [y]) ++ ys)) := ih (v ++ [y])
      _ = calculate_total_distance d (a :: (v ++ y :: ys)) := by simp

end TotalDistanceLemmas

section ReverseLemmas

variable {α : Type*} {β : Type*} [LinearOrderedField β] (d : α → α → β)

theorem pathDistance_reverse (hsymm : ∀ x y, d x y = d y x) :
    ∀ l : List α, pathDistance d l.reverse = pathDistance d l := by
  intro l
  induction l with
  | nil => rfl
  | cons a t ih =>
    rw [List.reverse_cons, pathDistance_concat, ih, List.getLast?_reverse]
    cases t with
    | nil => simp [pathDistance]
    | cons b m =>
      rw [show (b :: m).head? = some b from rfl,
        show pathDistance d (a :: b :: m) = d a b + pathDistance d (b :: m) from rfl,
        hsymm a b]
      show pathDistance d (b :: m) + d b a = d b a + pathDistance d (b :: m)
      ring

theorem total_reverse (hsymm : ∀ x y, d x y = d y x) (route : List α) :
    calculate_total_distance d route.reverse = calculate_total_distance d route := by
  cases route with
  | nil => rfl
  | cons x xs =>
    obtain ⟨c, m, hcm⟩ := List.exists_cons_of_ne_nil
      (show (x :: xs).reverse ≠ [] by simp)
    have hlast : m.getLastD c = x := by
      have h1 : ((x :: xs).reverse).getLast? = some x := by
        rw [List.getLast?_reverse]
        rfl
      rw [hcm, getLast?_cons_eq_getLastD] at h1
      simpa using h1
    have hhead : c = xs.getLastD x := by
      have h1 : ((x :: xs).reverse).head? = some (xs.getLastD x) := by
        rw [List.head?_reverse, getLast?_cons_eq_getLastD]
      rw [hcm] at h1
      simpa using h1
    calc calculate_total_distance d ((x :: xs).reverse)
        = calculate_total_distance d (c :: m) := by rw [hcm]
      _ = pathDistance d (c :: m) + d (m.getLastD c) c := rfl
      _ = pathDistance d ((x :: xs).reverse) + d x (xs.getLastD x) := by
          rw [hcm, hlast, hhead]
      _ = pathDistance d (x :: xs) + d (xs.getLastD x) x := by
          rw [pathDistance_reverse d hsymm, hsymm]

end ReverseLemmas

section Algorithms

variable {α : Type*} {β : Type*} [LinearOrderedField β]

/-- The selection loop of find_shortest_route_brute_force: walk the candidate
routes keeping the best seen so far.  The running shortest distance is an
`Option`, with `none` standing for the initial `float('inf')` (any computed
distance beats it). -/
def bruteLoop (d : α → α → β) :
    List (List α) → List α → Option β → List α × Option β
  | [], best, sd => (best, sd)
  | route :: rest, best, sd =>
    let dist := calculate_total_distance d route
    match sd with
    | none => bruteLoop d rest route (some dist)
    | some s =>
      if dist < s then bruteLoop d rest route (some dist)
      else bruteLoop d rest best (some s)

/-- Brute-force exact search: fix the first point, try every permutation of
the rest, and keep the route with the smallest total distance.  Inputs of
length at most 1 are returned unchanged. -/
def find_shortest_route_brute_force (d : α → α → β) (coordinates : List α) :
    List α :=
  match coordinates with
  | [] => coordinates
  | [_] => coordinates
  | first :: remaining =>
    (bruteLoop d (remaining.permutations.map fun p => first :: p)
      coordinates none).1

/-- Python `min(us, key=lambda p: d current p)` over the non-empty list
`u :: us`: the first element attaining the minimal key. -/
def selectNearest (d : α → α → β) (current : α) (u : α) (us : List α) : α :=
  us.foldl (fun best p => if d current p < d current best then p else best) u

/-- The while-loop of find_shortest_route_nearest_neighbor.  `fuel` bounds
the number of iterations; it is initialised to the number of unvisited
points, and each iteration removes exactly one of them, so the fuel never
runs out early. -/
def nnLoop (d : α → α → β) [DecidableEq α] :
    Nat → List α → List α → List α
  | 0, route, _ => route
  | _ + 1, route, [] => route
  | fuel + 1, route, u :: us =>
    let current := route.getLastD u
    let nearest := selectNearest d current u us
    nnLoop d fuel (route ++ [nearest]) ((u :: us).erase nearest)

/-- Nearest-neighbor construction: start at the first coordinate and
repeatedly append the closest unvisited coordinate. -/
def find_shortest_route_nearest_neighbor (d : α → α → β) [DecidableEq α]
    (coordinates : List α) : List α :=
  match coordinates with
  | [] => coordinates
  | [_] => coordinates
  | c :: rest => nnLoop d rest.length [c] rest

/-- Python slice assignment new_route[i:j+1] = reversed(new_route[i:j+1]). -/
def reverseSegment (route : List α) (i j : Nat) : List α :=
  route.take i ++ ((route.drop i).take (j + 1 - i)).reverse ++ route.drop (j + 1)

/-- The (i, j) pairs scanned by the nested loops of two_opt_improvement, in
order: i ascending over range(n), j ascending over range(i+2, n), skipping
the pair (0, n-1) that would reverse the whole route. -/
def candidatePairs (n : Nat) : List (Nat × Nat) :=
  (List.range n).flatMap fun i =>
    ((List.range n).filter fun j =>
      decide (i + 2 ≤ j) && !(decide (i = 0) && decide (j = n - 1))).map
      fun j => (i, j)

/-- One scan of the nested loops: return the first candidate reversal whose
total distance is strictly below the current best distance. -/
def findImprove (d : α → α → β) (route : List α) (bd : β) :
    List (Nat × Nat) → Option (List α)
  | [] => none
  | (i, j) :: rest =>
    let nr := reverseSegment route i j
    if calculate_total_distance d nr < bd then some nr
    else findImprove d route bd rest

/-- The outer iteration loop of two_opt_improvement: while the iteration cap
is not exhausted, accept the first improving 2-opt move and restart the scan;
stop when a full scan finds no improvement.  The best route always coincides
with the current route, and the best distance with its total distance. -/
def twoOptGo (d : α → α → β) : Nat → List α → List α
  | 0, route => route
  | fuel + 1, route =>
    match findImprove d route (calculate_total_distance d route)
        (candidatePairs route.length) with
    | some nr => twoOptGo d fuel nr
    | none => route

/-- 2-opt local search with an iteration cap (default 1000 at call sites). -/
def two_opt_improvement (d : α → α → β) (route : List α)
    (max_iterations : Nat) : List α :=
  twoOptGo d max_iterations route

/-- Nearest neighbor construction followed by 2-opt improvement. -/
def find_shortest_route_2opt (d : α → α → β) [DecidableEq α]
    (coordinates : List α) : List α :=
  two_opt_improvement d (find_shortest_route_nearest_neighbor d coordinates) 1000

/-- The method names accepted by the dispatcher. -/
def validMethods : List String := ["auto", "brute_force", "nearest_neighbor", "2opt"]

/-- The error message raised on an unrecognized method. -/
def invalidMethodMessage : String :=
  "Method must be brute_force, nearest_neighbor, 2opt, or auto"

/-- The strategy dispatch at the tail of optimize_route, on the resolved
method name: run the chosen strategy and return its route together with
calculate_total_distance of that route; an unrecognized name raises
ValueError, modelled as Except.error. -/
def runMethod (d : α → α → β) [DecidableEq α]
    (coordinates : List α) (m : String) : Except String (List α × β) :=
  if m = "brute_force" then
    let route := find_shortest_route_brute_force d coordinates
    Except.ok (route, calculate_total_distance d route)
  else if m = "nearest_neighbor" then
    let route := find_shortest_route_nearest_neighbor d coordinates
    Except.ok (route, calculate_total_distance d route)
  else if m = "2opt" then
    let route := find_shortest_route_2opt d coordinates
    Except.ok (route, calculate_total_distance d route)
  else Except.error invalidMethodMessage

/-- The dispatcher optimize_route: empty and singleton inputs return
immediately with distance 0; otherwise auto resolves to brute_force for at
most 8 coordinates and to 2opt beyond, and the resolved method is run. -/
def optimize_route (d : α → α → β) [DecidableEq α]
    (coordinates : List α) (method : String) :
    Except String (List α × β) :=
  match coordinates with
  | [] => Except.ok ([], 0)
  | [p] => Except.ok ([p], 0)
  | _ =>
    runMethod d coordinates
      (if method = "auto" then
        (if coordinates.length ≤ 8 then "brute_force" else "2opt")
      else method)

end Algorithms

section BruteForceLemmas

variable {α : Type*} {β : Type*} [LinearOrderedField β] (d : α → α → β)

theorem bruteLoop_cons_none (route : List α) (rest : List (List α))
    (best : List α) :
    bruteLoop d (route :: rest) best none =
      bruteLoop d rest route (some (calculate_total_distance d route)) := rfl

theorem bruteLoop_cons_some (route : List α) (rest : List (List α))
    (best : List α) (s : β) :
    bruteLoop d (route :: rest) best (some s) =
      if calculate_total_distance d route < s then
        bruteLoop d rest route (some (calculate_total_distance d route))
      else bruteLoop d rest best (some s) := rfl

theorem bruteLoop_fst_mem (routes : List (List α)) (best : List α)
    (sd : Option β) : (bruteLoop d routes best sd).1 ∈ best :: routes := by
  induction routes generalizing best sd with
  | nil => simp [bruteLoop]
  | cons route rest ih =>
    cases sd with
    | none =>
      rw [bruteLoop_cons_none]
      have h := ih route (some (calculate_total_distance d route))
      rcases List.mem_cons.mp h with h1 | h1
      · rw [h1]
        exact List.mem_cons.mpr (Or.inr (List.mem_cons_self _ _))
      · exact List.mem_cons.mpr (Or.inr (List.mem_cons.mpr (Or.inr h1)))
    | some s =>
      rw [bruteLoop_cons_some]
      by_cases hlt : calculate_total_distance d route < s
      · rw [if_pos hlt]
        have h := ih route (some (calculate_total_distance d route))
        rcases List.mem_cons.mp h with h1 | h1
        · rw [h1]
          exact List.mem_cons.mpr (Or.inr (List.mem_cons_self _ _))
        · exact List.mem_cons.mpr (Or.inr (List.mem_cons.mpr (Or.inr h1)))
      · rw [if_neg hlt]
        have h := ih best (some s)
        rcases List.mem_cons.mp h with h1 | h1
        · exact List.mem_cons.mpr (Or.inl h1)
        · exact List.mem_cons.mpr (Or.inr (List.mem_cons.mpr (Or.inr h1)))

theorem bruteLoop_min (routes : List (List α)) (best : List α) (s : β)
    (hbest : calculate_total_distance d best ≤ s) :
    calculate_total_distance d (bruteLoop d routes best (some s)).1 ≤ s ∧
      ∀ r ∈ routes,
        calculate_total_distance d (bruteLoop d routes best (some s)).1 ≤
          calculate_total_distance d r := by
  induction routes generalizing best s with
  | nil =>
    refine ⟨?_, by simp⟩
    simpa [bruteLoop] using hbest
  | cons route rest ih =>
    rw [bruteLoop_cons_some]
    by_cases hlt : calculate_total_distance d route < s
    · rw [if_pos hlt]
      obtain ⟨h1, h2⟩ := ih route (calculate_total_distance d route) le_rfl
      refine ⟨h1.trans hlt.le, ?_⟩
      intro r hr
      rcases List.mem_cons.mp hr with h3 | h3
      · rw [h3]
        exact h1
      · exact h2 r h3
    · rw [if_neg hlt]
      push_neg at hlt
      obtain ⟨h1, h2⟩ := ih best s hbest
      refine ⟨h1, ?_⟩
      intro r hr
      rcases List.mem_cons.mp hr with h3 | h3
      · rw [h3]
        exact h1.trans hlt
      · exact h2 r h3

/-- The brute-force result on first :: remaining keeps the first point in
front and permutes the remaining ones. -/
theorem brute_force_shape (first : α) (remaining : List α) :
    ∃ q, find_shortest_route_brute_force d (first :: remaining) = first :: q ∧
      q.Perm remaining := by
  cases remaining with
  | nil => exact ⟨[], rfl, List.Perm.refl _⟩
  | cons r0 rs =>
    have hres : find_shortest_route_brute_force d (first :: r0 :: rs) =
        (bruteLoop d (((r0 :: rs).permutations).map fun p => first :: p)
          (first :: r0 :: rs) none).1 := rfl
    have hmem := bruteLoop_fst_mem d
      (((r0 :: rs).permutations).map fun p => first :: p) (first :: r0 :: rs) none
    rw [← hres] at hmem
    rcases List.mem_cons.mp hmem with h1 | h1
    · exact ⟨r0 :: rs, h1, List.Perm.refl _⟩
    · obtain ⟨q, hq, hq2⟩ := List.mem_map.mp h1
      exact ⟨q, hq2.symm, List.mem_permutations.mp hq⟩

/-- The brute-force result is never beaten by a candidate first :: q with
q a permutation of the remaining points. -/
theorem brute_force_min_candidates (first : α) (remaining : List α)
    (q : List α) (hq : q.Perm remaining) :
    calculate_total_distance d
        (find_shortest_route_brute_force d (first :: remaining)) ≤
      calculate_total_distance d (first :: q) := by
  cases remaining with
  | nil =>
    have hq0 : q = [] := hq.eq_nil
    subst hq0
    exact le_rfl
  | cons r0 rs =>
    have hmemq : (first :: q) ∈
        ((r0 :: rs).permutations).map fun p => first :: p :=
      List.mem_map.mpr ⟨q, List.mem_permutations.mpr hq, rfl⟩
    obtain ⟨c, crest, hc⟩ := List.exists_cons_of_ne_nil
      (show ((r0 :: rs).permutations).map (fun p => first :: p) ≠ [] by
        intro h
        rw [h] at hmemq
        exact List.not_mem_nil _ hmemq)
    have hres : find_shortest_route_brute_force d (first :: r0 :: rs) =
        (bruteLoop d (((r0 :: rs).permutations).map fun p => first :: p)
          (first :: r0 :: rs) none).1 := rfl
    rw [hres, hc, bruteLoop_cons_none]
    obtain ⟨h1, h2⟩ := bruteLoop_min d crest c
      (calculate_total_distance d c) le_rfl
    rw [hc] at hmemq
    rcases List.mem_cons.mp hmemq with h3 | h3
    · rw [h3]
      exact h1
    · exact h2 _ h3

end BruteForceLemmas

section NearestNeighborLemmas

variable {α : Type*} {β : Type*} [LinearOrderedField β] (d : α → α → β)
variable [DecidableEq α]

omit [DecidableEq α] in
theorem selectNearest_mem (current u : α) (us : List α) :
    selectNearest d current u us ∈ u :: us := by
  unfold selectNearest
  induction us generalizing u with
  | nil => simp
  | cons p ps ih =>
    rw [List.foldl_cons]
    by_cases h : d current p < d current u
    · rw [if_pos h]
      have := ih p
      rcases List.mem_cons.mp this with h1 | h1
      · rw [h1]
        exact List.mem_cons.mpr (Or.inr (List.mem_cons_self _ _))
      · exact List.mem_cons.mpr (Or.inr (List.mem_cons.mpr (Or.inr h1)))
    · rw [if_neg h]
      have := ih u
      rcases List.mem_cons.mp this with h1 | h1
      · exact List.mem_cons.mpr (Or.inl h1)
      · exact List.mem_cons.mpr (Or.inr (List.mem_cons.mpr (Or.inr h1)))

theorem nnLoop_step (fuel : Nat) (route : List α) (u : α) (us : List α) :
    nnLoop d (fuel + 1) route (u :: us) =
      nnLoop d fuel
        (route ++ [selectNearest d (route.getLastD u) u us])
        ((u :: us).erase (selectNearest d (route.getLastD u) u us)) := rfl

theorem nnLoop_perm (fuel : Nat) :
    ∀ (route unvisited : List α), unvisited.length ≤ fuel →
      (nnLoop d fuel route unvisited).Perm (route ++ unvisited) := by
  induction fuel with
  | zero =>
    intro route unvisited hlen
    have : unvisited = [] := List.length_eq_zero.mp (Nat.le_zero.mp hlen)
    subst this
    simp [nnLoop]
  | succ fuel ih =>
    intro route unvisited hlen
    cases unvisited with
    | nil => simp [nnLoop]
    | cons u us =>
      rw [nnLoop_step]
      set nearest := selectNearest d (route.getLastD u) u us with hn
      have hmem : nearest ∈ u :: us := selectNearest_mem d _ u us
      have hlen2 : ((u :: us).erase nearest).length ≤ fuel := by
        rw [List.length_erase_of_mem hmem]
        simpa using Nat.le_of_succ_le_succ hlen
      have h1 := ih (route ++ [nearest]) ((u :: us).erase nearest) hlen2
      refine h1.trans ?_
      rw [List.append_assoc]
      refine List.Perm.append_left route ?_
      exact (List.perm_cons_erase hmem).symm

theorem nnLoop_prefix (fuel : Nat) :
    ∀ (route unvisited : List α),
      ∃ t, nnLoop d fuel route unvisited = route ++ t := by
  induction fuel with
  | zero =>
    intro route unvisited
    exact ⟨[], by simp [nnLoop]⟩
  | succ fuel ih =>
    intro route unvisited
    cases unvisited with
    | nil => exact ⟨[], by simp [nnLoop]⟩
    | cons u us =>
      rw [nnLoop_step]
      obtain ⟨t, ht⟩ := ih
        (route ++ [selectNearest d (route.getLastD u) u us])
        ((u :: us).erase (selectNearest d (route.getLastD u) u us))
      exact ⟨_ :: t, by rw [ht, List.append_assoc]; rfl⟩

/-- The nearest-neighbor result on first :: rest keeps the first point in
front and permutes the rest. -/
theorem nearest_neighbor_shape (first : α) (rest : List α) :
    ∃ q, find_shortest_route_nearest_neighbor d (first :: rest) = first :: q ∧
      q.Perm rest := by
  cases rest with
  | nil => exact ⟨[], rfl, List.Perm.refl _⟩
  | cons r0 rs =>
    have hres : find_shortest_route_nearest_neighbor d (first :: r0 :: rs) =
        nnLoop d (r0 :: rs).length [first] (r0 :: rs) := rfl
    obtain ⟨t, ht⟩ := nnLoop_prefix d (r0 :: rs).length [first] (r0 :: rs)
    have hperm := nnLoop_perm d (r0 :: rs).length [first] (r0 :: rs) le_rfl
    rw [ht] at hperm
    refine ⟨t, by rw [hres, ht]; rfl, ?_⟩
    have : (first :: t).Perm (first :: (r0 :: rs)) := hperm
    exact this.cons_inv

end NearestNeighborLemmas

section TwoOptLemmas

variable {α : Type*} {β : Type*} [LinearOrderedField β] (d : α → α → β)

theorem reverseSegment_perm (route : List α) (i j : Nat) (hij : i ≤ j + 1) :
    (reverseSegment route i j).Perm route := by
  unfold reverseSegment
  rw [List.append_assoc]
  conv_rhs => rw [← List.take_append_drop i route]
  refine List.Perm.append_left _ ?_
  conv_rhs => rw [← List.take_append_drop (j + 1 - i) (route.drop i)]
  refine List.Perm.append ((route.drop i).take (j + 1 - i)).reverse_perm ?_
  rw [List.drop_drop, show i + (j + 1 - i) = j + 1 from by omega]

theorem candidatePairs_mem (n i j : Nat) (h : (i, j) ∈ candidatePairs n) :
    i + 2 ≤ j := by
  unfold candidatePairs at h
  rw [List.mem_flatMap] at h
  obtain ⟨i0, _, h2⟩ := h
  rw [List.mem_map] at h2
  obtain ⟨j0, hj0, hj1⟩ := h2
  rw [List.mem_filter] at hj0
  cases hj1
  have hle := hj0.2
  simp only [Bool.and_eq_true, decide_eq_true_eq] at hle
  exact hle.1

theorem findImprove_some (route : List α) (bd : β)
    (pairs : List (Nat × Nat)) (nr : List α)
    (h : findImprove d route bd pairs = some nr) :
    calculate_total_distance d nr < bd ∧
      ∃ p ∈ pairs, nr = reverseSegment route p.1 p.2 := by
  induction pairs with
  | nil => simp [findImprove] at h
  | cons ij rest ih =>
    obtain ⟨i, j⟩ := ij
    rw [show findImprove d route bd ((i, j) :: rest) =
      (if calculate_total_distance d (reverseSegment route i j) < bd then
        some (reverseSegment route i j)
      else findImprove d route bd rest) from rfl] at h
    by_cases hlt : calculate_total_distance d (reverseSegment route i j) < bd
    · rw [if_pos hlt] at h
      have hnr : nr = reverseSegment route i j := (Option.some_inj.mp h).symm
      subst hnr
      exact ⟨hlt, (i, j), List.mem_cons_self _ _, rfl⟩
    · rw [if_neg hlt] at h
      obtain ⟨h1, p, hp, hp2⟩ := ih h
      exact ⟨h1, p, List.mem_cons.mpr (Or.inr hp), hp2⟩

theorem twoOptGo_le (fuel : Nat) :
    ∀ route : List α,
      calculate_total_distance d (twoOptGo d fuel route) ≤
        calculate_total_distance d route := by
  induction fuel with
  | zero => intro route; exact le_rfl
  | succ fuel ih =>
    intro route
    rw [show twoOptGo d (fuel + 1) route =
      (match findImprove d route (calculate_total_distance d route)
          (candidatePairs route.length) with
        | some nr => twoOptGo d fuel nr
        | none => route) from rfl]
    cases hfi : findImprove d route (calculate_total_distance d route)
        (candidatePairs route.length) with
    | none => exact le_rfl
    | some nr =>
      obtain ⟨hlt, _⟩ := findImprove_some d route _ _ nr hfi
      exact (ih nr).trans hlt.le

theorem twoOptGo_perm (fuel : Nat) :
    ∀ route : List α, (twoOptGo d fuel route).Perm route := by
  induction fuel with
  | zero => intro route; exact List.Perm.refl _
  | succ fuel ih =>
    intro route
    rw [show twoOptGo d (fuel + 1) route =
      (match findImprove d route (calculate_total_distance d route)
          (candidatePairs route.length) with
        | some nr => twoOptGo d fuel nr
        | none => route) from rfl]
    cases hfi : findImprove d route (calculate_total_distance d route)
        (candidatePairs route.length) with
    | none => exact List.Perm.refl _
    | some nr =>
      obtain ⟨_, p, hp, hp2⟩ := findImprove_some d route _ _ nr hfi
      have hij : p.1 + 2 ≤ p.2 := candidatePairs_mem route.length p.1 p.2 (by
        obtain ⟨i, j⟩ := p
        exact hp)
      have hnr : nr.Perm route := by
        rw [hp2]
        exact reverseSegment_perm route p.1 p.2 (by omega)
      exact (ih nr).trans hnr

end TwoOptLemmas

section DispatchLemmas

variable {α : Type*} {β : Type*} [LinearOrderedField β] (d : α → α → β)
variable [DecidableEq α]

theorem runMethod_brute_force (coordinates : List α) :
    runMethod d coordinates "brute_force" =
      Except.ok (find_shortest_route_brute_force d coordinates,
        calculate_total_distance d
          (find_shortest_route_brute_force d coordinates)) := by
  unfold runMethod
  rw [if_pos rfl]

theorem runMethod_nearest_neighbor (coordinates : List α) :
    runMethod d coordinates "nearest_neighbor" =
      Except.ok (find_shortest_route_nearest_neighbor d coordinates,
        calculate_total_distance d
          (find_shortest_route_nearest_neighbor d coordinates)) := by
  unfold runMethod
  rw [if_neg (by decide), if_pos rfl]

theorem runMethod_2opt (coordinates : List α) :
    runMethod d coordinates "2opt" =
      Except.ok (find_shortest_route_2opt d coordinates,
        calculate_total_distance d (find_shortest_route_2opt d coordinates)) := by
  unfold runMethod
  rw [if_neg (by decide), if_neg (by decide), if_pos rfl]

theorem runMethod_invalid (coordinates : List α) (m : String)
    (hm : m ∉ validMethods) :
    runMethod d coordinates m = Except.error invalidMethodMessage := by
  unfold runMethod
  have h1 : m ≠ "brute_force" := fun h =>
    hm (h ▸ (by decide : ("brute_force" : String) ∈ validMethods))
  have h2 : m ≠ "nearest_neighbor" := fun h =>
    hm (h ▸ (by decide : ("nearest_neighbor" : String) ∈ validMethods))
  have h3 : m ≠ "2opt" := fun h =>
    hm (h ▸ (by decide : ("2opt" : String) ∈ validMethods))
  rw [if_neg h1, if_neg h2, if_neg h3]

theorem optimize_route_cons_cons (a b : α) (l : List α) (method : String) :
    optimize_route d (a :: b :: l) method =
      runMethod d (a :: b :: l)
        (if method = "auto" then
          (if (a :: b :: l).length ≤ 8 then "brute_force" else "2opt")
        else method) := rfl

/-- The distance the dispatcher returns is always the evaluator applied to
the route it returns, provided the metric vanishes on the diagonal (used
for the singleton case, whose returned distance is the literal 0). -/
theorem optimize_route_ok_dist (hd : ∀ p, d p p = 0) (coordinates : List α)
    (method : String) (r : List α) (dist : β)
    (h : optimize_route d coordinates method = Except.ok (r, dist)) :
    dist = calculate_total_distance d r := by
  match coordinates with
  | [] =>
    rw [show optimize_route d ([] : List α) method = Except.ok ([], 0) from rfl]
      at h
    obtain ⟨h1, h2⟩ := Prod.mk.injEq _ _ _ _ ▸ Except.ok.inj h
    rw [← h1, ← h2]
    rfl
  | [p] =>
    rw [show optimize_route d [p] method = Except.ok ([p], 0) from rfl] at h
    obtain ⟨h1, h2⟩ := Prod.mk.injEq _ _ _ _ ▸ Except.ok.inj h
    rw [← h1, ← h2,
      show calculate_total_distance d [p] = pathDistance d [p] + d p p from rfl,
      hd p]
    simp [pathDistance]
  | a :: b :: l =>
    rw [optimize_route_cons_cons] at h
    set m := (if method = "auto" then
        (if (a :: b :: l).length ≤ 8 then "brute_force" else "2opt")
      else method) with hm
    unfold runMethod at h
    by_cases h1 : m = "brute_force"
    · rw [if_pos h1] at h
      obtain ⟨h3, h4⟩ := Prod.mk.injEq _ _ _ _ ▸ Except.ok.inj h
      rw [← h3, ← h4]
    · rw [if_neg h1] at h
      by_cases h2 : m = "nearest_neighbor"
      · rw [if_pos h2] at h
        obtain ⟨h3, h4⟩ := Prod.mk.injEq _ _ _ _ ▸ Except.ok.inj h
        rw [← h3, ← h4]
      · rw [if_neg h2] at h
        by_cases h5 : m = "2opt"
        · rw [if_pos h5] at h
          obtain ⟨h3, h4⟩ := Prod.mk.injEq _ _ _ _ ▸ Except.ok.inj h
          rw [← h3, ← h4]
        · rw [if_neg h5] at h
          exact absurd h (by simp)

/-- Every route the dispatcher returns is a permutation of the input. -/
theorem optimize_route_ok_perm (coordinates : List α)
    (method : String) (r : List α) (dist : β)
    (h : optimize_route d coordinates method = Except.ok (r, dist)) :
    r.Perm coordinates := by
  match coordinates with
  | [] =>
    rw [show optimize_route d ([] : List α) method = Except.ok ([], 0) from rfl]
      at h
    obtain ⟨h1, _⟩ := Prod.mk.injEq _ _ _ _ ▸ Except.ok.inj h
    rw [← h1]
  | [p] =>
    rw [show optimize_route d [p] method = Except.ok ([p], 0) from rfl] at h
    obtain ⟨h1, _⟩ := Prod.mk.injEq _ _ _ _ ▸ Except.ok.inj h
    rw [← h1]
  | a :: b :: l =>
    rw [optimize_route_cons_cons] at h
    set m := (if method = "auto" then
        (if (a :: b :: l).length ≤ 8 then "brute_force" else "2opt")
      else method) with hm
    unfold runMethod at h
    have hbf : (find_shortest_route_brute_force d (a :: b :: l)).Perm
        (a :: b :: l) := by
      obtain ⟨q, hq, hq2⟩ := brute_force_shape d a (b :: l)
      rw [hq]
      exact hq2.cons a
    have hnn : (find_shortest_route_nearest_neighbor d (a :: b :: l)).Perm
        (a :: b :: l) := by
      obtain ⟨q, hq, hq2⟩ := nearest_neighbor_shape d a (b :: l)
      rw [hq]
      exact hq2.cons a
    have h2o : (find_shortest_route_2opt d (a :: b :: l)).Perm
        (a :: b :: l) := by
      refine (twoOptGo_perm d 1000 _).trans hnn
    by_cases h1 : m = "brute_force"
    · rw [if_pos h1] at h
      obtain ⟨h3, _⟩ := Prod.mk.injEq _ _ _ _ ▸ Except.ok.inj h
      rw [← h3]
      exact hbf
    · rw [if_neg h1] at h
      by_cases h2 : m = "nearest_neighbor"
      · rw [if_pos h2] at h
        obtain ⟨h3, _⟩ := Prod.mk.injEq _ _ _ _ ▸ Except.ok.inj h
        rw [← h3]
        exact hnn
      · rw [if_neg h2] at h
        by_cases h5 : m = "2opt"
        · rw [if_pos h5] at h
          obtain ⟨h3, _⟩ := Prod.mk.injEq _ _ _ _ ▸ Except.ok.inj h
          rw [← h3]
          exact h2o
        · rw [if_neg h5] at h
          exact absurd h (by simp)

end DispatchLemmas

section SmallTourLemmas

variable {α : Type*} {β : Type*} [LinearOrderedField β] (d : α → α → β)

theorem perm_pair_cases {l : List α} {a b : α} (h : l.Perm [a, b]) :
    l = [a, b] ∨ l = [b, a] := by
  match l, h.length_eq with
  | [x, y], _ =>
    have hx : x ∈ [a, b] := h.subset (List.mem_cons_self x [y])
    rcases List.mem_cons.mp hx with hx1 | hx1
    · subst hx1
      have h2 : [y].Perm [b] := (List.perm_cons x).mp h
      have h3 : y = b := by simpa [List.perm_singleton] using h2
      exact Or.inl (by rw [h3])
    · have hx2 : x = b := by simpa using hx1
      subst hx2
      have h2 : List.Perm [x, y] [x, a] := h.trans (List.Perm.swap x a [])
      have h3 : [y].Perm [a] := (List.perm_cons x).mp h2
      have h4 : y = a := by simpa [List.perm_singleton] using h3
      exact Or.inr (by rw [h4])

/-- With a symmetric metric, every tour on at most three points that fixes
the first point has the same closed length (3-cycles are related by
reversal, shorter tours are unique). -/
theorem total_small_const (hsymm : ∀ x y, d x y = d y x) (x : α)
    (rest q : List α) (hlen : rest.length ≤ 2) (hq : q.Perm rest) :
    calculate_total_distance d (x :: q) =
      calculate_total_distance d (x :: rest) := by
  match rest, hlen with
  | [], _ =>
    rw [hq.eq_nil]
  | [b], _ =>
    rw [List.perm_singleton.mp hq]
  | [b, c], _ =>
    rcases perm_pair_cases hq with h1 | h1
    · rw [h1]
    · rw [h1]
      have e1 : calculate_total_distance d (x :: [c, b]) =
          d x c + (d c b + 0) + d b x := rfl
      have e2 : calculate_total_distance d (x :: [b, c]) =
          d x b + (d b c + 0) + d c x := rfl
      rw [e1, e2, hsymm x c, hsymm c b, hsymm b x]
      ring

end SmallTourLemmas

/-- Claim C1: for every non-empty list of coordinates the route found by the
exact brute-force strategy is a permutation of the input whose closed-tour
distance is less than or equal to that of every permutation of the input, so
its distance equals the minimum of calculate_total_distance over all
orderings of the input. -/
theorem claim_C1 (coords : List (ℝ × ℝ)) (hne : coords ≠ []) :
    (find_shortest_route_brute_force haversine_distance coords).Perm coords ∧
      ∀ p : List (ℝ × ℝ), p.Perm coords →
        calculate_total_distance haversine_distance
            (find_shortest_route_brute_force haversine_distance coords) ≤
          calculate_total_distance haversine_distance p := by
  match coords, hne with
  | first :: remaining, _ =>
    constructor
    · obtain ⟨q, hq, hq2⟩ := brute_force_shape haversine_distance first remaining
      rw [hq]
      exact hq2.cons first
    · intro p hp
      have hfm : first ∈ p := hp.mem_iff.mpr (List.mem_cons_self _ _)
      obtain ⟨u, v, huv⟩ := List.append_of_mem hfm
      have hrot : calculate_total_distance haversine_distance p =
          calculate_total_distance haversine_distance (first :: (v ++ u)) := by
        rw [huv]
        exact total_rotate haversine_distance u v first
      have hperm : (v ++ u).Perm remaining := by
        have h1 : (first :: (u ++ v)).Perm (first :: remaining) :=
          (List.perm_middle.symm).trans (huv ▸ hp)
        exact List.perm_append_comm.trans h1.cons_inv
      rw [hrot]
      exact brute_force_min_candidates haversine_distance first remaining
        (v ++ u) hperm

theorem claim_C1_witness :
    ([((0:ℝ), (0:ℝ)), ((1:ℝ), (1:ℝ))] : List (ℝ × ℝ)) ≠ [] ∧
      calculate_total_distance haversine_distance
          (find_shortest_route_brute_force haversine_distance
            [((0:ℝ), (0:ℝ)), ((1:ℝ), (1:ℝ))]) ≤
        calculate_total_distance haversine_distance
          [((1:ℝ), (1:ℝ)), ((0:ℝ), (0:ℝ))] :=
  ⟨List.cons_ne_nil _ _,
    (claim_C1 _ (List.cons_ne_nil _ _)).2 _ (List.Perm.swap _ _ _)⟩

/-- Claim C2: the 2-opt local search never returns a route whose total
distance exceeds that of its starting route, for any route and any
iteration cap. -/
theorem claim_C2 (route : List (ℝ × ℝ)) (max_iterations : Nat) :
    calculate_total_distance haversine_distance
        (two_opt_improvement haversine_distance route max_iterations) ≤
      calculate_total_distance haversine_distance route :=
  twoOptGo_le haversine_distance max_iterations route

/-- Claim C3 counterexample: the claim says every non-empty coordinate list
with an unrecognized method fails, but a singleton list returns successfully
before the method is ever examined. -/
theorem claim_C3_counterexample :
    optimize_route haversine_distance [((0:ℝ), (0:ℝ))] ("bogus") =
      Except.ok ([((0:ℝ), (0:ℝ))], 0) := rfl

/-- Claim C3 (amended): for every list of at least two coordinates, calling
optimize_route with a method outside the valid set fails with the
invalid-method error. -/
theorem claim_C3 (coords : List (ℝ × ℝ)) (method : String)
    (hlen : 2 ≤ coords.length) (hm : method ∉ validMethods) :
    optimize_route haversine_distance coords method =
      Except.error invalidMethodMessage := by
  match coords, hlen with
  | a :: b :: l, _ =>
    rw [optimize_route_cons_cons]
    have hma : method ≠ "auto" := fun h =>
      hm (h ▸ (by decide : ("auto" : String) ∈ validMethods))
    rw [if_neg hma]
    exact runMethod_invalid haversine_distance _ method hm

theorem claim_C3_witness :
    2 ≤ ([((0:ℝ), (0:ℝ)), ((1:ℝ), (1:ℝ))] : List (ℝ × ℝ)).length ∧
      ("bogus" : String) ∉ validMethods ∧
      optimize_route haversine_distance
          [((0:ℝ), (0:ℝ)), ((1:ℝ), (1:ℝ))] ("bogus") =
        Except.error invalidMethodMessage :=
  ⟨by decide, by decide, claim_C3 _ _ (by decide) (by decide)⟩

/-- Claim C4: for every valid method, the empty input yields the empty route
with distance 0 and a singleton input yields that singleton with distance 0;
neither is an error. -/
theorem claim_C4 (m : String) (_hm : m ∈ validMethods) :
    optimize_route haversine_distance ([] : List (ℝ × ℝ)) m =
        Except.ok ([], 0) ∧
      ∀ p : ℝ × ℝ, optimize_route haversine_distance [p] m =
        Except.ok ([p], 0) :=
  ⟨rfl, fun _ => rfl⟩

theorem claim_C4_witness :
    ("auto" : String) ∈ validMethods ∧
      optimize_route haversine_distance ([] : List (ℝ × ℝ)) ("auto") =
        Except.ok ([], 0) ∧
      optimize_route haversine_distance [((3:ℝ), (4:ℝ))] ("auto") =
        Except.ok ([((3:ℝ), (4:ℝ))], 0) :=
  ⟨by decide, (claim_C4 _ (by decide)).1, (claim_C4 _ (by decide)).2 _⟩

/-- Claim C5: on at least two coordinates, the auto method behaves exactly
as brute_force when the input length is at most 8 and exactly as 2opt when
it is greater than 8. -/
theorem claim_C5 (coords : List (ℝ × ℝ)) (hlen : 2 ≤ coords.length) :
    (coords.length ≤ 8 →
      optimize_route haversine_distance coords ("auto") =
        optimize_route haversine_distance coords ("brute_force")) ∧
    (8 < coords.length →
      optimize_route haversine_distance coords ("auto") =
        optimize_route haversine_distance coords ("2opt")) := by
  match coords, hlen with
  | a :: b :: l, _ =>
    constructor
    · intro h8
      rw [optimize_route_cons_cons, optimize_route_cons_cons, if_pos rfl,
        if_neg (by decide : ¬("brute_force" : String) = "auto"), if_pos h8]
    · intro h8
      rw [optimize_route_cons_cons, optimize_route_cons_cons, if_pos rfl,
        if_neg (by decide : ¬("2opt" : String) = "auto"),
        if_neg (Nat.not_le.mpr h8)]

theorem claim_C5_witness :
    2 ≤ ([((0:ℝ), (0:ℝ)), ((1:ℝ), (1:ℝ))] : List (ℝ × ℝ)).length ∧
      ([((0:ℝ), (0:ℝ)), ((1:ℝ), (1:ℝ))] : List (ℝ × ℝ)).length ≤ 8 ∧
      optimize_route haversine_distance
          [((0:ℝ), (0:ℝ)), ((1:ℝ), (1:ℝ))] ("auto") =
        optimize_route haversine_distance
          [((0:ℝ), (0:ℝ)), ((1:ℝ), (1:ℝ))] ("brute_force") :=
  ⟨by decide, by decide, (claim_C5 _ (by decide)).1 (by decide)⟩

/-- Claim C6: whenever optimize_route succeeds, the distance it returns is
exactly calculate_total_distance of the route it returns, including the
empty and singleton cases where the literal 0 coincides with the
evaluator. -/
theorem claim_C6 (coords : List (ℝ × ℝ)) (method : String)
    (r : List (ℝ × ℝ)) (dist : ℝ)
    (h : optimize_route haversine_distance coords method =
      Except.ok (r, dist)) :
    dist = calculate_total_distance haversine_distance r :=
  optimize_route_ok_dist haversine_distance haversine_self coords method
    r dist h

theorem claim_C6_witness :
    optimize_route haversine_distance ([] : List (ℝ × ℝ)) ("auto") =
        Except.ok ([], 0) ∧
      (0 : ℝ) = calculate_total_distance haversine_distance
        ([] : List (ℝ × ℝ)) :=
  ⟨rfl, claim_C6 [] ("auto") [] 0 rfl⟩

/-- Claim C7 counterexample: two distinct coordinates within the valid
latitude/longitude ranges, both at the north pole, have haversine distance
exactly 0, so zero distance does not imply equality. -/
theorem claim_C7_counterexample :
    ((-90 ≤ (90:ℝ) ∧ (90:ℝ) ≤ 90) ∧ (-180 ≤ (0:ℝ) ∧ (0:ℝ) ≤ 180) ∧
      (-180 ≤ (10:ℝ) ∧ (10:ℝ) ≤ 180)) ∧
    ((90:ℝ), (0:ℝ)) ≠ ((90:ℝ), (10:ℝ)) ∧
    haversine_distance ((90:ℝ), (0:ℝ)) ((90:ℝ), (10:ℝ)) = 0 := by
  refine ⟨by norm_num, ?_, ?_⟩
  · intro h
    have h2 := congrArg Prod.snd h
    norm_num at h2
  · have hrad : toRadians 90 = Real.pi / 2 := by
      unfold toRadians
      ring
    have e : haversine_distance ((90:ℝ), (0:ℝ)) ((90:ℝ), (10:ℝ)) =
        2 * Real.arcsin (Real.sqrt
          (Real.sin ((toRadians 90 - toRadians 90) / 2) ^ 2 +
            Real.cos (toRadians 90) * Real.cos (toRadians 90) *
              Real.sin ((toRadians 10 - toRadians 0) / 2) ^ 2)) * 6371 := rfl
    rw [e, hrad]
    simp [Real.cos_pi_div_two]

/-- Claim C7 (amended): the haversine distance from any coordinate to itself
is 0 (so equal coordinates are at distance zero); the converse fails at the
poles, where distinct valid coordinates also get distance 0. -/
theorem claim_C7 (a : ℝ × ℝ) : haversine_distance a a = 0 :=
  haversine_self a

/-- Claim C8: the closed-tour length of every route is invariant under
reversing the visit order. -/
theorem claim_C8 (route : List (ℝ × ℝ)) :
    calculate_total_distance haversine_distance route.reverse =
      calculate_total_distance haversine_distance route :=
  total_reverse haversine_distance haversine_comm route

/-- Claim C9: on at most three coordinates the exact strategy and the
nearest-neighbor strategy return equal total distances, because all cycles
through at most three points have the same closed length. -/
theorem claim_C9 (coords : List (ℝ × ℝ)) (hlen : coords.length ≤ 3) :
    Except.map Prod.snd
        (optimize_route haversine_distance coords ("brute_force")) =
      Except.map Prod.snd
        (optimize_route haversine_distance coords ("nearest_neighbor")) := by
  match coords, hlen with
  | [], _ => rfl
  | [p], _ => rfl
  | a :: b :: l, hlen =>
    rw [optimize_route_cons_cons, optimize_route_cons_cons,
      if_neg (by decide : ¬("brute_force" : String) = "auto"),
      if_neg (by decide : ¬("nearest_neighbor" : String) = "auto"),
      runMethod_brute_force, runMethod_nearest_neighbor]
    obtain ⟨q1, hq1, hq1p⟩ :=
      brute_force_shape haversine_distance a (b :: l)
    obtain ⟨q2, hq2, hq2p⟩ :=
      nearest_neighbor_shape haversine_distance a (b :: l)
    have hblen : (b :: l).length ≤ 2 := by
      simp only [List.length_cons] at hlen ⊢
      omega
    have e1 : calculate_total_distance haversine_distance
        (find_shortest_route_brute_force haversine_distance (a :: b :: l)) =
        calculate_total_distance haversine_distance (a :: b :: l) := by
      rw [hq1]
      exact total_small_const haversine_distance haversine_comm a (b :: l)
        q1 hblen hq1p
    have e2 : calculate_total_distance haversine_distance
        (find_shortest_route_nearest_neighbor haversine_distance
          (a :: b :: l)) =
        calculate_total_distance haversine_distance (a :: b :: l) := by
      rw [hq2]
      exact total_small_const haversine_distance haversine_comm a (b :: l)
        q2 hblen hq2p
    simp only [Except.map]
    rw [e1, e2]

theorem claim_C9_witness :
    ([((0:ℝ), (0:ℝ))] : List (ℝ × ℝ)).length ≤ 3 ∧
      Except.map Prod.snd (optimize_route haversine_distance
          [((0:ℝ), (0:ℝ))] ("brute_force")) =
        Except.map Prod.snd (optimize_route haversine_distance
          [((0:ℝ), (0:ℝ))] ("nearest_neighbor")) :=
  ⟨by decide, claim_C9 _ (by decide)⟩

/-- Claim C10: whenever optimize_route succeeds, the returned route is a
permutation of the input coordinates: same elements with the same
multiplicities. -/
theorem claim_C10 (coords : List (ℝ × ℝ)) (method : String)
    (r : List (ℝ × ℝ)) (dist : ℝ)
    (h : optimize_route haversine_distance coords method =
      Except.ok (r, dist)) :
    r.Perm coords :=
  optimize_route_ok_perm haversine_distance coords method r dist h

theorem claim_C10_witness :
    optimize_route haversine_distance [((5:ℝ), (6:ℝ))] ("auto") =
        Except.ok ([((5:ℝ), (6:ℝ))], 0) ∧
      ([((5:ℝ), (6:ℝ))] : List (ℝ × ℝ)).Perm [((5:ℝ), (6:ℝ))] :=
  ⟨rfl, claim_C10 [((5:ℝ), (6:ℝ))] ("auto") [((5:ℝ), (6:ℝ))] 0 rfl⟩
